import Mathlib

/-!
# Verification of the `wget` mirroring engine

A shallow embedding, in Lean 4, of the website-mirroring core of the `wget`
clone (packages `mirror`, `downloader`): the URL → local-path mapping, the
resource extractor and filter, the link rewriter, the rate-limit parser, and
the bounded BFS crawl orchestrator, together with theorems about the
properties claimed by the specification.

Conventions used throughout:

* Go `string` values are Lean `String`s; most character processing is done on
  the underlying `List Char` so the definitions compute by kernel reduction.
* Go `int` values are Lean `Int`s; Go `float64` rate arithmetic is modelled
  exactly over `ℚ` (the rate strings the program manipulates are short
  decimals, whose routing through the `k`/`m` multiplier branches is the
  property of interest, not floating-point rounding).
* The host platform is Linux: `filepath.FromSlash` is the identity and the
  path separator is `/`.
* Functions from the Go standard library (`strings`, `path/filepath`,
  `net/url`, `fmt.Sscanf`) that the mirrored code calls are modelled by
  `go…`-prefixed Lean definitions, faithful to the library semantics on the
  ASCII, escape-free inputs this program handles.
* I/O effects (HTTP fetches, directory creation, file writes) are supplied by
  an explicit environment record so each crawl run is a pure function of the
  environment.
-/

namespace Wget

/-! ## Go `strings` primitives -/

/-- ASCII lower-casing of one character, as `strings.ToLower` acts on the
ASCII subset this program manipulates (65–90 are `A`–`Z`). -/
def lowerChar (c : Char) : Char :=
  if 65 ≤ c.toNat ∧ c.toNat ≤ 90 then Char.ofNat (c.toNat + 32) else c

/-- Go `strings.ToLower` on the underlying character list. -/
def lowerL (s : List Char) : List Char := s.map lowerChar

/-- Go `strings.ToLower` (ASCII model). -/
def goToLower (s : String) : String := ⟨lowerL s.data⟩

/-- The characters `strings.TrimSpace` removes (ASCII whitespace). -/
def isGoSpace (c : Char) : Bool :=
  c = ' ' ∨ c = '\t' ∨ c = '\n' ∨ c = '\r' ∨ c = '\x0b' ∨ c = '\x0c'

/-- Go `strings.TrimSpace` on character lists. -/
def trimSpaceL (s : List Char) : List Char :=
  ((s.dropWhile isGoSpace).reverse.dropWhile isGoSpace).reverse

/-- Go `strings.TrimSpace` (ASCII model). -/
def goTrimSpace (s : String) : String := ⟨trimSpaceL s.data⟩

/-- Go `strings.Contains` on character lists: `pat` occurs as a contiguous
substring of `s` (the empty pattern always occurs). -/
def containsL (s pat : List Char) : Bool :=
  if pat.isPrefixOf s then true
  else
    match s with
    | [] => false
    | _ :: t => containsL t pat

/-- Go `strings.Contains`. -/
def goContains (s pat : String) : Bool := containsL s.data pat.data

/-- Go `strings.HasPrefix`. -/
def goHasPrefix (s pre : String) : Bool := pre.data.isPrefixOf s.data

/-- Go `strings.HasSuffix`. -/
def goHasSuffix (s suf : String) : Bool := suf.data.isSuffixOf s.data

/-- The scan of `strings.ReplaceAll`, fuelled so that it computes by
structural recursion: replace every non-overlapping occurrence of `pat`
(scanning left to right) by `rep`.  Following Go, an empty pattern inserts
`rep` before every character and after the last.  Each step consumes at
least one character, so fuel `s.length` (what `replaceAllL` passes) makes
the fuel bound unreachable. -/
def replaceAllAux (pat rep : List Char) : Nat → List Char → List Char
  | _, [] => if pat = [] then rep else []
  | 0, s => s
  | n + 1, c :: t =>
      if pat = [] then rep ++ c :: replaceAllAux pat rep n t
      else if pat.isPrefixOf (c :: t) then
        rep ++ replaceAllAux pat rep n ((c :: t).drop pat.length)
      else c :: replaceAllAux pat rep n t

/-- Go `strings.ReplaceAll` on character lists. -/
def replaceAllL (s pat rep : List Char) : List Char :=
  replaceAllAux pat rep s.length s

/-- Go `strings.ReplaceAll`. -/
def goReplaceAll (s pat rep : String) : String := ⟨replaceAllL s.data pat.data rep.data⟩

theorem containsL_cons (c : Char) (t pat : List Char) :
    containsL (c :: t) pat = (pat.isPrefixOf (c :: t) || containsL t pat) := by
  conv_lhs => unfold containsL
  split
  · next hp => simp [hp]
  · next hp =>
      rw [Bool.not_eq_true] at hp
      simp only [hp, Bool.false_or]

/-- The empty pattern is contained in every string. -/
theorem containsL_nil (s : List Char) : containsL s [] = true := by
  cases s <;> rfl

theorem replaceAllAux_of_not_contains (pat rep : List Char) (hne : pat ≠ []) :
    ∀ (n : Nat) (s : List Char), containsL s pat = false → s.length ≤ n →
      replaceAllAux pat rep n s = s := by
  intro n
  induction n with
  | zero =>
      intro s _ hl
      cases s with
      | nil => simp [replaceAllAux, hne]
      | cons c t => simp at hl
  | succ n ih =>
      intro s hc hl
      cases s with
      | nil => simp [replaceAllAux, hne]
      | cons c t =>
          rw [containsL_cons] at hc
          simp only [Bool.or_eq_false_iff] at hc
          show replaceAllAux pat rep (n + 1) (c :: t) = c :: t
          unfold replaceAllAux
          rw [if_neg hne, if_neg (by simp [hc.1])]
          rw [ih t hc.2 (by simp at hl; omega)]

/-- If the (nonempty) pattern occurs nowhere in `s`, `replaceAllL` is the
identity on `s`. -/
theorem replaceAllL_of_not_contains (s pat rep : List Char)
    (hne : pat ≠ []) (h : containsL s pat = false) : replaceAllL s pat rep = s :=
  replaceAllAux_of_not_contains pat rep hne s.length s h (le_refl _)

/-- If the (nonempty) pattern occurs nowhere in `s`, `goReplaceAll` leaves
`s` unchanged. -/
theorem goReplaceAll_of_not_contains (s pat rep : String)
    (hne : pat ≠ "") (h : goContains s pat = false) : goReplaceAll s pat rep = s := by
  have hd : pat.data ≠ [] := by
    intro hc
    exact hne (by cases pat with | mk l => simp at hc; simp [hc])
  show (⟨replaceAllL s.data pat.data rep.data⟩ : String) = s
  rw [replaceAllL_of_not_contains s.data pat.data rep.data hd h]

/-! ## Go `path/filepath` primitives (Linux: separator `/`, `FromSlash = id`) -/

/-- Go `strings.Split(s, "/")` on character lists: `"a//b"` gives
`["a", "", "b"]`, `""` gives `[""]`. -/
def splitSlashL (s : List Char) : List (List Char) :=
  match s with
  | [] => [[]]
  | c :: t =>
      if c = '/' then [] :: splitSlashL t
      else
        match splitSlashL t with
        | [] => [[c]]
        | f :: r => (c :: f) :: r

/-- Join path segments with `/` separators. -/
def joinSegsL (l : List (List Char)) : List Char := (l.intersperse ['/']).flatten

/-- The segment-stack pass of `filepath.Clean`: empty and `"."` segments are
dropped, `".."` pops a previous segment, stays at the front of a relative
path, and is dropped at the root of an absolute one. -/
def cleanSegs (rooted : Bool) : List (List Char) → List (List Char) → List (List Char)
  | acc, [] => acc.reverse
  | acc, seg :: rest =>
      if seg = [] ∨ seg = ['.'] then cleanSegs rooted acc rest
      else if seg = ['.', '.'] then
        match acc with
        | [] => if rooted then cleanSegs rooted [] rest else cleanSegs rooted [seg] rest
        | top :: acc' =>
            if top = ['.', '.'] then cleanSegs rooted (seg :: acc) rest
            else cleanSegs rooted acc' rest
      else cleanSegs rooted (seg :: acc) rest

/-- Go `filepath.Clean` on character lists (Linux). -/
def cleanL (s : List Char) : List Char :=
  match s with
  | [] => ['.']
  | c :: _ =>
      let rooted := c = '/'
      let body := joinSegsL (cleanSegs rooted [] (splitSlashL s))
      if rooted then '/' :: body
      else if body = [] then ['.'] else body

/-- Go `filepath.Clean` (Linux). -/
def goClean (s : String) : String := ⟨cleanL s.data⟩

/-- Go `filepath.Join` restricted to the two-element form the program uses:
empty elements are skipped and the result is cleaned; all-empty input
yields `""`. -/
def goJoin (a b : String) : String :=
  if a = "" ∧ b = "" then ""
  else if a = "" then goClean b
  else if b = "" then goClean a
  else goClean (a ++ "/" ++ b)

/-- Go `filepath.FromSlash` is the identity on Linux. -/
def goFromSlash (s : String) : String := s

/-- Go `filepath.Dir`: everything up to and including the final `/`, cleaned;
`"."` when there is no separator. -/
def goDir (s : String) : String :=
  goClean ⟨((s.data.reverse.dropWhile (fun c => c ≠ '/')).reverse)⟩

/-- Drop the common leading segments of two segment lists. -/
def dropCommon : List (List Char) → List (List Char) → List (List Char) × List (List Char)
  | b :: bs, t :: ts => if b = t then dropCommon bs ts else (b :: bs, t :: ts)
  | bs, ts => (bs, ts)

/-- Go `filepath.Rel` (Linux, no volume names): `none` models the error
return.  After cleaning, the paths must agree on rootedness; if the base
still begins with an unresolvable `..` after stripping the common prefix
the computation fails, otherwise the result climbs with `..` segments and
descends into the remaining target segments. -/
def goRel (base targ : String) : Option String :=
  let b := goClean base
  let t := goClean targ
  if b = t then some "."
  else if (goHasPrefix b "/") ≠ (goHasPrefix t "/") then none
  else
    let bsegs := if b = "." then [] else (splitSlashL b.data).filter (fun x => x ≠ [])
    let tsegs := if t = "." then [] else (splitSlashL t.data).filter (fun x => x ≠ [])
    let rem := dropCommon bsegs tsegs
    match rem.1 with
    | ['.', '.'] :: _ => none
    | brem =>
        some ⟨joinSegsL (List.replicate brem.length ['.', '.'] ++ rem.2)⟩

/-! ## Go `net/url` model

Modelled from the Go standard library for the escape-free, userinfo-free
`http(s)`-style URLs this program handles: a URL is a scheme, host,
path, query and fragment; parsing rejects strings containing ASCII control
characters, recognises `scheme://host/path?query#fragment` absolute forms,
and treats everything else as a relative path reference.  Reference
resolution follows RFC 3986 §5.2.2 as `(*URL).ResolveReference` implements
it (including dot-segment elision via `resolvePath`). -/

structure GoURL where
  scheme : String
  host : String
  path : String
  query : String
  fragment : String
deriving DecidableEq, Repr, Inhabited

/-- Split at the first occurrence of `sep`: `(before, after)`; when `sep`
does not occur, `(s, [])`. -/
def splitOnceL (s : List Char) (sep : Char) : List Char × List Char :=
  match s with
  | [] => ([], [])
  | c :: t =>
      if c = sep then ([], t)
      else
        let p := splitOnceL t sep
        (c :: p.1, p.2)

/-- Characters allowed in a URL scheme. -/
def isSchemeChar (c : Char) : Bool := c.isAlpha ∨ c.isDigit ∨ c = '+' ∨ c = '-' ∨ c = '.'

/-- Recognise an absolute `scheme://` prefix, returning the (lowercased)
scheme and the remainder after `://`. -/
def absSplit (s : List Char) : Option (List Char × List Char) :=
  let sch := s.takeWhile isSchemeChar
  match s.drop sch.length with
  | ':' :: '/' :: '/' :: r =>
      if (sch.head?.elim false Char.isAlpha) then some (lowerL sch, r) else none
  | _ => none

/-- ASCII control characters make `url.Parse` fail. -/
def hasCtl (s : List Char) : Bool := s.any (fun c => c.toNat < 0x20 ∨ c.toNat = 0x7f)

/-- Go `url.Parse` (model): split off fragment and query, then either an
absolute `scheme://host/path` form or a relative path reference. -/
def parseURL (s : String) : Option GoURL :=
  if hasCtl s.data then none
  else
    let pf := splitOnceL s.data '#'
    let pq := splitOnceL pf.1 '?'
    match absSplit pq.1 with
    | some sr =>
        let host := sr.2.takeWhile (fun c => c ≠ '/')
        let path := sr.2.drop host.length
        some { scheme := ⟨sr.1⟩, host := ⟨host⟩, path := ⟨path⟩
               query := ⟨pq.2⟩, fragment := ⟨pf.2⟩ }
    | none =>
        some { scheme := "", host := "", path := ⟨pq.1⟩
               query := ⟨pq.2⟩, fragment := ⟨pf.2⟩ }

/-- Go `(*URL).String` for the URLs of this model. -/
def urlString (u : GoURL) : String :=
  let core := if u.scheme = "" then u.path else u.scheme ++ "://" ++ u.host ++ u.path
  let withQ := if u.query = "" then core else core ++ "?" ++ u.query
  if u.fragment = "" then withQ else withQ ++ "#" ++ u.fragment

/-- The dot-segment elision pass of `net/url`'s `resolvePath`: `.` segments
vanish, `..` pops the previous segment, and a trailing `.` or `..` keeps the
trailing slash. -/
def elideSegs (segs : List (List Char)) : List (List Char) :=
  let out := segs.foldl (fun acc seg =>
    if seg = ['.'] then acc
    else if seg = ['.', '.'] then acc.dropLast
    else acc ++ [seg]) []
  match segs.getLast? with
  | some seg => if seg = ['.'] ∨ seg = ['.', '.'] then out ++ [[]] else out
  | none => out

/-- Go `net/url`'s `resolvePath(base, ref)`: merge the reference path onto the
base path and elide dot segments; a nonempty result is always rooted. -/
def resolvePathGo (base ref : String) : String :=
  let full : List Char :=
    if ref = "" then base.data
    else if ref.data.head? ≠ some '/' then
      (base.data.reverse.dropWhile (fun c => c ≠ '/')).reverse ++ ref.data
    else ref.data
  match full with
  | [] => ""
  | c :: t =>
      let segs := if c = '/' then splitSlashL t else splitSlashL full
      ⟨'/' :: joinSegsL (elideSegs segs)⟩

/-- Go `(*URL).ResolveReference` (RFC 3986 §5.2.2 as Go implements it, for
URLs without userinfo or opaque parts). -/
def resolveReference (u ref : GoURL) : GoURL :=
  if ref.scheme ≠ "" ∨ ref.host ≠ "" then
    { ref with scheme := if ref.scheme = "" then u.scheme else ref.scheme
               path := resolvePathGo ref.path "" }
  else
    let keepBase := ref.path = "" ∧ ref.query = ""
    { scheme := u.scheme
      host := u.host
      path := resolvePathGo u.path ref.path
      query := if keepBase then u.query else ref.query
      fragment := if keepBase ∧ ref.fragment = "" then u.fragment else ref.fragment }

/-- Go `resolveURL` from `parse.go`: skip non-fetchable schemes, parse the
reference and resolve it against the base URL, rendering the result. -/
def resolveURL (href : String) (baseURL : GoURL) : Option String :=
  if goHasPrefix href "data:" || goHasPrefix href "javascript:" ||
      goHasPrefix href "mailto:" || goHasPrefix href "tel:" then none
  else
    (parseURL href).map (fun ref => urlString (resolveReference baseURL ref))

/-! ## The resource extractor (`parse.go`)

The Go extractor runs four case-insensitive regular expressions over the
document text with `FindAllStringSubmatch` (leftmost, non-overlapping,
greedy quantifiers).  Each is embedded as a deterministic scanner that
attempts a match at every position from left to right and resumes after the
end of each match; greedy `[^>]*` gaps are matched longest-first with
backtracking, exactly the preference order of the regexp engine. -/

/-- The characters of the regexp class `\s`. -/
def isRegexSpace (c : Char) : Bool :=
  c = ' ' ∨ c = '\t' ∨ c = '\n' ∨ c = '\x0c' ∨ c = '\r'

/-- Length of the maximal `\s*` run at the front. -/
def wsCount (s : List Char) : Nat := (s.takeWhile isRegexSpace).length

/-- The characters of the regexp class `["']`. -/
def isQuote (c : Char) : Bool := c = '"' ∨ c = '\''

/-- Match a literal case-insensitively at the front, returning its length. -/
def matchCI : List Char → List Char → Option Nat
  | [], _ => some 0
  | _ :: _, [] => none
  | l :: ls, c :: cs =>
      if lowerChar c = lowerChar l then (matchCI ls cs).map (· + 1) else none

/-- Match `["']([^"']+)["']`: a quoted, nonempty, quote-free capture.
Returns the consumed length and the capture. -/
def quotedCapture (s : List Char) : Option (Nat × List Char) :=
  match s with
  | q :: s1 =>
      if isQuote q then
        let cap := s1.takeWhile (fun c => !(isQuote c))
        if cap = [] then none
        else
          match s1.drop cap.length with
          | q2 :: _ => if isQuote q2 then some (1 + cap.length + 1, cap) else none
          | [] => none
      else none
  | [] => none

/-- Match `\s*=\s*["']([^"']+)["']`. -/
def matchEqQuoted (s : List Char) : Option (Nat × List Char) :=
  let n1 := wsCount s
  match s.drop n1 with
  | '=' :: s2 =>
      let n2 := wsCount s2
      (quotedCapture (s2.drop n2)).map (fun p => (n1 + 1 + n2 + p.1, p.2))
  | _ => none

/-- Match `name\s*=\s*["']([^"']+)["']` case-insensitively (the `href` and
`src` attribute patterns). -/
def attrMatchAt (name : List Char) (s : List Char) : Option (Nat × List Char) :=
  (matchCI name s).bind (fun n =>
    (matchEqQuoted (s.drop n)).map (fun p => (n + p.1, p.2)))

/-- Greedy backtracking for a `pred*` gap followed by the continuation `k`:
the longest admissible gap is preferred, as for a greedy regexp star. -/
def starBackAux (k : List Char → Option (Nat × List Char)) (s : List Char) :
    Nat → Option (Nat × List Char)
  | 0 => k s
  | i + 1 =>
      match k (s.drop (i + 1)) with
      | some p => some (i + 1 + p.1, p.2)
      | none => starBackAux k s i

/-- Greedy `pred*` star followed by continuation `k`. -/
def starBack (pred : Char → Bool) (k : List Char → Option (Nat × List Char))
    (s : List Char) : Option (Nat × List Char) :=
  starBackAux k s (s.takeWhile pred).length

/-- Match `rel\s*=\s*["']stylesheet["']` case-insensitively. -/
def relStylesheetAt (s : List Char) : Option Nat :=
  (matchCI "rel".data s).bind (fun n =>
    let s1 := s.drop n
    let w1 := wsCount s1
    match s1.drop w1 with
    | '=' :: s2 =>
        let w2 := wsCount s2
        match s2.drop w2 with
        | q :: s3 =>
            if isQuote q then
              (matchCI "stylesheet".data s3).bind (fun m =>
                match s3.drop m with
                | q2 :: _ =>
                    if isQuote q2 then some (n + w1 + 1 + w2 + 1 + m + 1) else none
                | [] => none)
            else none
        | [] => none
    | _ => none)

/-- Match `<link[^>]*rel\s*=\s*["']stylesheet["'][^>]*href\s*=\s*["']([^"']+)["']`. -/
def cssLinkMatchAt (s : List Char) : Option (Nat × List Char) :=
  (matchCI "<link".data s).bind (fun n =>
    (starBack (fun c => c ≠ '>') (fun s2 =>
        (relStylesheetAt s2).bind (fun m =>
          (starBack (fun c => c ≠ '>') (fun s4 =>
              (matchCI "href".data s4).bind (fun h =>
                (matchEqQuoted (s4.drop h)).map (fun p => (h + p.1, p.2))))
            (s2.drop m)).map (fun p => (m + p.1, p.2))))
      (s.drop n)).map (fun p => (n + p.1, p.2)))

/-- Match `<script[^>]*src\s*=\s*["']([^"']+)["']`. -/
def scriptMatchAt (s : List Char) : Option (Nat × List Char) :=
  (matchCI "<script".data s).bind (fun n =>
    (starBack (fun c => c ≠ '>') (fun s2 =>
        (matchCI "src".data s2).bind (fun m =>
          (matchEqQuoted (s2.drop m)).map (fun p => (m + p.1, p.2))))
      (s.drop n)).map (fun p => (n + p.1, p.2)))

/-- Match `@import\s+["']([^"']+)["']`. -/
def importMatchAt (s : List Char) : Option (Nat × List Char) :=
  (matchCI "@import".data s).bind (fun n =>
    let w := wsCount (s.drop n)
    if w = 0 then none
    else (quotedCapture (s.drop (n + w))).map (fun p => (n + w + p.1, p.2)))

/-- Match `url\s*\(\s*["']?([^"')]+)["']?\s*\)` (the quotes are optional and
the capture can contain neither quotes nor a closing parenthesis, so the
greedy options are forced and no backtracking is observable). -/
def urlRefMatchAt (s : List Char) : Option (Nat × List Char) :=
  (matchCI "url".data s).bind (fun n =>
    let s1 := s.drop n
    let w1 := wsCount s1
    match s1.drop w1 with
    | '(' :: s2 =>
        let w2 := wsCount s2
        let s3 := s2.drop w2
        let qn := if s3.head?.elim false (fun c => isQuote c) then 1 else 0
        let s4 := s3.drop qn
        let cap := s4.takeWhile (fun c => !(isQuote c) && c ≠ ')')
        if cap = [] then none
        else
          let s5 := s4.drop cap.length
          let q2n := if s5.head?.elim false (fun c => isQuote c) then 1 else 0
          let s6 := s5.drop q2n
          let w3 := wsCount s6
          match s6.drop w3 with
          | ')' :: _ =>
              some (n + w1 + 1 + w2 + qn + cap.length + q2n + w3 + 1, cap)
          | _ => none
    | _ => none)

/-- Go `FindAllStringSubmatch`: scan left to right, attempting `matchAt` at
every position, resuming after each (nonempty) match.  Returns
`(whole match, capture)` pairs.  The fuel argument is an upper bound on the
number of scan steps; every caller passes the content length, which
suffices since each step consumes at least one character. -/
def scanAll (matchAt : List Char → Option (Nat × List Char)) :
    Nat → List Char → List (List Char × List Char)
  | 0, _ => []
  | _, [] => []
  | fuel + 1, c :: t =>
      match matchAt (c :: t) with
      | some (n, cap) =>
          if n = 0 then []
          else (List.take n (c :: t), cap) :: scanAll matchAt fuel (List.drop n (c :: t))
      | none => scanAll matchAt fuel t

/-! ## Resource model (`parse.go`) -/

inductive ResourceType where
  | HTML
  | CSS
  | JS
  | Image
  | Other
deriving DecidableEq, Repr

/-- A discovered web resource: resolved absolute URL, inferred kind and the
original matched document text. -/
structure Resource where
  url : String
  rtype : ResourceType
  original : String
deriving DecidableEq, Repr

/-- Go `determineResourceType`: classify a URL by case-insensitive substring
containment, in the source's order of checks. -/
def determineResourceType (urlStr : String) : ResourceType :=
  let lower := goToLower urlStr
  if goContains lower ".css" then .CSS
  else if goContains lower ".js" then .JS
  else if goContains lower ".png" || goContains lower ".jpg" ||
      goContains lower ".jpeg" || goContains lower ".gif" ||
      goContains lower ".svg" || goContains lower ".webp" then .Image
  else if goContains lower ".html" || goContains lower ".htm" ||
      !(goContains lower ".") then .HTML
  else .Other

/-- Turn scanner matches into `Resource`s: resolve each capture against the
base URL, silently dropping non-fetchable or unparseable references; the
kind is fixed by the scanner or, for plain `href` and `url()` matches,
inferred from the resolved URL. -/
def mkResources (found : List (List Char × List Char)) (baseURL : GoURL)
    (ty : Option ResourceType) : List Resource :=
  found.filterMap (fun m =>
    (resolveURL ⟨m.2⟩ baseURL).map (fun abs =>
      { url := abs, rtype := ty.getD (determineResourceType abs), original := ⟨m.1⟩ }))

/-- Go `ParseHTML`: all `href` attributes (kind inferred), all `src` attributes
(kind image), stylesheet `<link>`s (kind CSS) and `<script src>`s (kind JS),
in that order.  The Go function's error return is always `nil`. -/
def ParseHTML (content : String) (baseURL : GoURL) : List Resource :=
  let cs := content.data
  mkResources (scanAll (attrMatchAt "href".data) cs.length cs) baseURL none ++
    mkResources (scanAll (attrMatchAt "src".data) cs.length cs) baseURL (some .Image) ++
    mkResources (scanAll cssLinkMatchAt cs.length cs) baseURL (some .CSS) ++
    mkResources (scanAll scriptMatchAt cs.length cs) baseURL (some .JS)

/-- Go `ParseCSS`: `@import` targets (kind CSS) then `url(...)` references
(kind inferred).  The Go function's error return is always `nil`. -/
def ParseCSS (content : String) (baseURL : GoURL) : List Resource :=
  let cs := content.data
  mkResources (scanAll importMatchAt cs.length cs) baseURL (some .CSS) ++
    mkResources (scanAll urlRefMatchAt cs.length cs) baseURL none

/-! ## The resource filter (`parse.go`) -/

/-- A resource matches some reject substring, case-insensitively. -/
def rejectedBy (r : Resource) (rejectTypes : List String) : Bool :=
  rejectTypes.any (fun rej => goContains (goToLower r.url) (goToLower rej))

/-- A resource matches some exclude substring on the raw URL. -/
def excludedBy (r : Resource) (excludeDirs : List String) : Bool :=
  excludeDirs.any (fun ex => goContains r.url ex)

/-- Go `FilterResources`: keep, in order, the resources matching no reject
substring (checked first, case-insensitively) and no exclude substring
(checked on the raw URL). -/
def FilterResources (resources : List Resource)
    (rejectTypes excludeDirs : List String) : List Resource :=
  resources.filter (fun r => !(rejectedBy r rejectTypes) && !(excludedBy r excludeDirs))

/-! ## URL → local path and the link rewriter (`convert.go`) -/

/-- Go `convertURLPathToLocalPath`: strip a leading `/`; an empty or
directory-like (trailing `/`) path gets `index.html` appended; join onto
the output directory (`FromSlash` is the identity on Linux). -/
def convertURLPathToLocalPath (urlPath outputDir : String) : String :=
  let p := if goHasPrefix urlPath "/" then (⟨urlPath.data.drop 1⟩ : String) else urlPath
  let p := if p = "" ∨ goHasSuffix p "/" then goJoin p "index.html" else p
  goJoin outputDir (goFromSlash p)

/-- Go `GetLocalFilePath`: parse the URL (empty string on failure) and map its
path through `convertURLPathToLocalPath`. -/
def GetLocalFilePath (urlStr outputDir : String) : String :=
  match parseURL urlStr with
  | none => ""
  | some u => convertURLPathToLocalPath u.path outputDir

/-- Go `convertURLToRelativePath`: same-host URLs map to the path of their
local file relative to the directory of the file being rewritten
(backslashes, absent on Linux, would be rewritten to slashes); anything
else yields `""`. -/
def convertURLToRelativePath (urlStr : String) (baseURL : GoURL)
    (outputDir currentFilePath : String) : String :=
  match parseURL urlStr with
  | none => ""
  | some pu =>
      if pu.host ≠ baseURL.host then ""
      else
        let localPath := convertURLPathToLocalPath pu.path outputDir
        match goRel (goDir currentFilePath) localPath with
        | none => ""
        | some rel => goReplaceAll rel "\\" "/"

/-- Go `ConvertLinks`: re-extract the resources of an HTML document and
replace every literal occurrence of each resource's absolute URL whose
relative path is nonempty by that relative path. -/
def ConvertLinks (content : String) (baseURL : GoURL)
    (outputDir currentFilePath : String) : String :=
  (ParseHTML content baseURL).foldl (fun acc r =>
    let rel := convertURLToRelativePath r.url baseURL outputDir currentFilePath
    if rel ≠ "" then goReplaceAll acc r.url rel else acc) content

/-- Go `ConvertCSSLinks`: the same rewrite driven by the CSS extractor. -/
def ConvertCSSLinks (content : String) (baseURL : GoURL)
    (outputDir currentFilePath : String) : String :=
  (ParseCSS content baseURL).foldl (fun acc r =>
    let rel := convertURLToRelativePath r.url baseURL outputDir currentFilePath
    if rel ≠ "" then goReplaceAll acc r.url rel else acc) content

/-! ## The mirror rate-limit parser (`mirror.go`)

`parseRateLimit` delegates to `parseRateLimitSimple`.  `fmt.Sscanf` number
scanning is modelled over `ℚ`: an optional sign, an integer part and an
optional fraction (the exponent forms are never used by rate strings);
following `Sscanf`, input left over after the format's verbs and literals
are satisfied is ignored, and a missing number is an error. -/

/-- Value of a digit string. -/
def digitsVal (ds : List Char) : ℕ :=
  ds.foldl (fun acc c => acc * 10 + (c.toNat - '0'.toNat)) 0

/-- Decimal digit (48–57 are `0`–`9`). -/
def isDigitChar (c : Char) : Bool := 48 ≤ c.toNat ∧ c.toNat ≤ 57

/-- Go `Sscanf`-style `%f` scan: parse a decimal number at the front, returning
its value and the unconsumed remainder. -/
def parseFloatL (s : List Char) : Option (ℚ × List Char) :=
  let sign : ℚ := if s.head? = some '-' then -1 else 1
  let s1 := if s.head? = some '-' ∨ s.head? = some '+' then s.drop 1 else s
  let ip := s1.takeWhile isDigitChar
  let s2 := s1.drop ip.length
  if s2.head? = some '.' then
    let s3 := s2.drop 1
    let fp := s3.takeWhile isDigitChar
    if ip = [] ∧ fp = [] then none
    else
      some (sign * ((digitsVal ip : ℚ) + (digitsVal fp : ℚ) / (10 ^ fp.length : ℚ)),
        s3.drop fp.length)
  else if ip = [] then none
  else some (sign * (digitsVal ip : ℚ), s2)

/-- Go `parseRateLimitSimple`: lower-case and trim, dispatch on a `k` or `m`
suffix (base-1024 multipliers; there is no `g` branch, so any other string
is scanned as a plain number with trailing characters ignored), reject
non-positive rates, and build the limiter `rate.NewLimiter(bytesPerSecond /
1024, 1)`.  The result models the limiter as (sustained requests per
second, burst). -/
def parseRateLimitSimple (rateStr : String) : Except String (ℚ × Nat) :=
  let r := goToLower (goTrimSpace rateStr)
  let bpsE : Except String ℚ :=
    if goHasSuffix r "k" then
      match parseFloatL r.data with
      | some qr =>
          if qr.2.head? = some 'k' then .ok (qr.1 * 1024)
          else .error ("invalid rate format: " ++ r)
      | none => .error ("invalid rate format: " ++ r)
    else if goHasSuffix r "m" then
      match parseFloatL r.data with
      | some qr =>
          if qr.2.head? = some 'm' then .ok (qr.1 * 1024 * 1024)
          else .error ("invalid rate format: " ++ r)
      | none => .error ("invalid rate format: " ++ r)
    else
      match parseFloatL r.data with
      | some qr => .ok qr.1
      | none => .error ("invalid rate format: " ++ r)
  match bpsE with
  | .error e => .error e
  | .ok bps =>
      if bps ≤ 0 then .error ("rate must be positive: " ++ r)
      else .ok (bps / 1024, 1)

/-! ## The crawl orchestrator (`mirror.go`)

I/O is supplied by a `MirrorEnv`: `fetch` returns the complete HTTP
response for a URL (`none` for a network or body-read error), `writeOk`
says whether creating the directories for and writing a given local path
succeeds, and `mkdirOk` whether the output root can be created.  The
rate limiter only delays requests (an invalid rate string is logged and
ignored), so it has no observable effect in this model. -/

structure HTTPResponse where
  status : Int
  contentType : String
  body : String
deriving DecidableEq, Repr

structure MirrorEnv where
  fetch : String → Option HTTPResponse
  writeOk : String → Bool
  mkdirOk : Bool

/-- Go `mirror.Options`. -/
structure MirrorOptions where
  rejectTypes : List String
  excludeDirs : List String
  convertLinks : Bool
  outputPath : String
  rateLimit : String
  maxDepth : Int
  maxFiles : Int
deriving DecidableEq, Repr

/-- Go `MirrorState`: the crawl bookkeeping (`visited` is the key set of the
Go `map[string]bool`, `downloaded` the URL → local-path map as an
association list, newest first). -/
structure MirrorState where
  baseURL : GoURL
  visited : List String
  pending : List String
  downloaded : List (String × String)
  fileCount : Int
deriving DecidableEq, Repr

/-- One iteration of the enqueue loop shared by `extractHTMLResources` and
`extractCSSResources`: append the resource's URL to `pending` when it
parses, is on the base host and is not yet visited. -/
def enqueueOne (st : MirrorState) (r : Resource) : MirrorState :=
  match parseURL r.url with
  | none => st
  | some resURL =>
      if resURL.host ≠ st.baseURL.host then st
      else if r.url ∈ st.visited then st
      else { st with pending := st.pending ++ [r.url] }

/-- The enqueue loop over the filtered resources. -/
def enqueueResources (s : MirrorState) (filtered : List Resource) : MirrorState :=
  filtered.foldl enqueueOne s

/-- Go `extractHTMLResources` (`none` models its error return, which the
caller logs and ignores). -/
def extractHTMLResources (s : MirrorState) (content baseURLStr : String)
    (opts : MirrorOptions) : Option MirrorState :=
  (parseURL baseURLStr).map (fun base =>
    enqueueResources s (FilterResources (ParseHTML content base) opts.rejectTypes opts.excludeDirs))

/-- Go `extractCSSResources`. -/
def extractCSSResources (s : MirrorState) (content baseURLStr : String)
    (opts : MirrorOptions) : Option MirrorState :=
  (parseURL baseURLStr).map (fun base =>
    enqueueResources s (FilterResources (ParseCSS content base) opts.rejectTypes opts.excludeDirs))

/-- Go `processURL`: fetch; any non-`200` status is an error; save the body at
the deterministic local path; record the download and bump the counter;
then extract further resources when the response looks like HTML or CSS
(extraction failures are logged, not propagated). -/
def processURL (env : MirrorEnv) (opts : MirrorOptions) (s : MirrorState)
    (urlStr : String) : Except String MirrorState :=
  match env.fetch urlStr with
  | none => .error ("failed to fetch " ++ urlStr)
  | some resp =>
      if resp.status ≠ 200 then .error ("HTTP error for " ++ urlStr)
      else
        let localPath := GetLocalFilePath urlStr opts.outputPath
        if !env.writeOk localPath then .error ("failed to save file " ++ localPath)
        else
          let s1 := { s with downloaded := (urlStr, localPath) :: s.downloaded
                             fileCount := s.fileCount + 1 }
          if goContains resp.contentType "text/html" || goHasSuffix urlStr ".html" then
            .ok ((extractHTMLResources s1 resp.body urlStr opts).getD s1)
          else if goContains resp.contentType "text/css" || goHasSuffix urlStr ".css" then
            .ok ((extractCSSResources s1 resp.body urlStr opts).getD s1)
          else .ok s1

/-- One iteration of the level loop in `mirror`: stop once the file cap is
reached, skip visited URLs, otherwise mark visited and process (a failed
`processURL` is logged and the loop continues with the URL marked). -/
def mirrorStep (env : MirrorEnv) (opts : MirrorOptions) (s : MirrorState)
    (u : String) : MirrorState :=
  if s.fileCount ≥ opts.maxFiles then s
  else if u ∈ s.visited then s
  else
    let s1 := { s with visited := u :: s.visited }
    match processURL env opts s1 u with
    | .error _ => s1
    | .ok s2 => s2

/-- The recursive `mirror`, re-indexed by the remaining depth budget:
`mirror(options, depth)` in Go is `mirrorGo ((MaxDepth - depth).toNat)`,
so fuel `0` is exactly the `depth >= MaxDepth` stop.  Each level snapshots
`pending`, clears it, folds the level loop, and recurses while new URLs
were discovered. -/
def mirrorGo (env : MirrorEnv) (opts : MirrorOptions) :
    Nat → MirrorState → MirrorState
  | 0, s => s
  | n + 1, s =>
      if s.fileCount ≥ opts.maxFiles then s
      else
        let s1 := List.foldl (mirrorStep env opts) { s with pending := [] } s.pending
        if s1.pending.isEmpty then s1 else mirrorGo env opts n s1

/-- Go `mirror` with its Go `error` return type: every return statement of the
Go function yields `nil`, and the recursive call's result is propagated. -/
def mirrorGoE (env : MirrorEnv) (opts : MirrorOptions) :
    Nat → MirrorState → Except String MirrorState
  | 0, s => .ok s
  | n + 1, s =>
      if s.fileCount ≥ opts.maxFiles then .ok s
      else
        let s1 := List.foldl (mirrorStep env opts) { s with pending := [] } s.pending
        if s1.pending.isEmpty then .ok s1 else mirrorGoE env opts n s1

/-- The successive states of a fold, including the starting state: the
per-iteration history of a loop. -/
def scanStates {α β : Type} (f : α → β → α) (a : α) : List β → List α
  | [] => [a]
  | b :: l => a :: scanStates f (f a b) l

/-- Every intermediate crawl state, in execution order: the state at entry
to each level, after the `pending` snapshot is cleared, and after each
iteration of the level loop. -/
def mirrorTrace (env : MirrorEnv) (opts : MirrorOptions) :
    Nat → MirrorState → List MirrorState
  | 0, s => [s]
  | n + 1, s =>
      if s.fileCount ≥ opts.maxFiles then [s]
      else
        let s0 : MirrorState := { s with pending := [] }
        let tr := scanStates (mirrorStep env opts) s0 s.pending
        let s1 := List.foldl (mirrorStep env opts) s0 s.pending
        if s1.pending.isEmpty then s :: tr
        else s :: (tr ++ mirrorTrace env opts n s1)

/-- The zero-valued-option coercion at the top of `MirrorWebsite`. -/
def applyDefaults (baseURL : GoURL) (opts : MirrorOptions) : MirrorOptions :=
  { opts with
    maxDepth := if opts.maxDepth = 0 then 5 else opts.maxDepth
    maxFiles := if opts.maxFiles = 0 then 1000 else opts.maxFiles
    outputPath := if opts.outputPath = "" then baseURL.host else opts.outputPath }

/-- The crawl state `MirrorWebsite` builds before the first level. -/
def initState (urlStr : String) (baseURL : GoURL) : MirrorState :=
  { baseURL := baseURL, visited := [], pending := [urlStr], downloaded := [], fileCount := 0 }

/-- Go `convertAllLinks` rewrites each downloaded file in place; every
per-file read or write failure is logged and skipped, and the function's
only `return` statement yields `nil`, which is all the caller observes. -/
def convertAllLinksE (_s : MirrorState) : Except String Unit := .ok ()

/-- Go `MirrorWebsite`: parse the seed (fatal on failure), apply option
defaults, create the output root (fatal on failure), run the crawl
(propagating its `error` return), optionally run the link conversion pass
(its failure is logged, not returned), and report success.  The model
returns the final crawl state and the coerced options. -/
def MirrorWebsite (env : MirrorEnv) (urlStr : String) (opts : MirrorOptions) :
    Except String (MirrorState × MirrorOptions) :=
  match parseURL urlStr with
  | none => .error "invalid URL"
  | some baseURL =>
      let o := applyDefaults baseURL opts
      if !env.mkdirOk then .error "failed to create output directory"
      else
        match mirrorGoE env o o.maxDepth.toNat (initState urlStr baseURL) with
        | .error e => .error e
        | .ok final =>
            let _ := if o.convertLinks then convertAllLinksE final else .ok ()
            .ok (final, o)

/-! ## Generic lemmas about loop histories -/

theorem scanStates_ne_nil {α β : Type} (f : α → β → α) (a : α) (l : List β) :
    scanStates f a l ≠ [] := by
  cases l <;> simp [scanStates]

theorem head?_scanStates {α β : Type} (f : α → β → α) (a : α) (l : List β) :
    (scanStates f a l).head? = some a := by
  cases l <;> rfl

theorem getLast?_scanStates {α β : Type} (f : α → β → α) (a : α) (l : List β) :
    (scanStates f a l).getLast? = some (List.foldl f a l) := by
  induction l generalizing a with
  | nil => rfl
  | cons b t ih =>
      show (a :: scanStates f (f a b) t).getLast? = _
      cases h : scanStates f (f a b) t with
      | nil => exact absurd h (scanStates_ne_nil f (f a b) t)
      | cons x xs =>
          rw [List.getLast?_cons_cons, ← h, ih]
          rfl

theorem mem_scanStates_inv {α β : Type} {f : α → β → α} {P : α → Prop}
    (hf : ∀ a b, P a → P (f a b)) :
    ∀ (l : List β) (a : α), P a → ∀ x ∈ scanStates f a l, P x := by
  intro l
  induction l with
  | nil =>
      intro a ha x hx
      simp only [scanStates, List.mem_singleton] at hx
      exact hx ▸ ha
  | cons b t ih =>
      intro a ha x hx
      simp only [scanStates, List.mem_cons] at hx
      rcases hx with rfl | hx
      · exact ha
      · exact ih (f a b) (hf a b ha) x hx

theorem chain'_scanStates {α β : Type} {f : α → β → α} {R : α → α → Prop}
    (hf : ∀ a b, R a (f a b)) :
    ∀ (l : List β) (a : α), List.Chain' R (scanStates f a l) := by
  intro l
  induction l with
  | nil => intro a; simp [scanStates]
  | cons b t ih =>
      intro a
      show List.Chain' R (a :: scanStates f (f a b) t)
      rw [List.chain'_cons']
      refine ⟨?_, ih (f a b)⟩
      intro y hy
      rw [head?_scanStates] at hy
      cases hy
      exact hf a b

theorem foldl_inv {α β : Type} {f : α → β → α} {P : α → Prop}
    (hf : ∀ a b, P a → P (f a b)) :
    ∀ (l : List β) (a : α), P a → P (List.foldl f a l) := by
  intro l
  induction l with
  | nil => intro a ha; exact ha
  | cons b t ih => intro a ha; exact ih (f a b) (hf a b ha)

/-! ## Shape lemmas for the crawl steps -/

theorem enqueueOne_spec (st : MirrorState) (r : Resource) :
    ∃ new, enqueueOne st r = { st with pending := st.pending ++ new } ∧
      ∀ v ∈ new, v ∉ st.visited := by
  unfold enqueueOne
  cases parseURL r.url with
  | none => exact ⟨[], by simp, by simp⟩
  | some resURL =>
      by_cases h1 : resURL.host ≠ st.baseURL.host
      · exact ⟨[], by simp [h1], by simp⟩
      · by_cases h2 : r.url ∈ st.visited
        · exact ⟨[], by simp [h1, h2], by simp⟩
        · refine ⟨[r.url], by simp [h1, h2], ?_⟩
          intro v hv
          rw [List.mem_singleton] at hv
          exact hv ▸ h2

theorem enqueueResources_spec (rs : List Resource) (s : MirrorState) :
    ∃ new, enqueueResources s rs = { s with pending := s.pending ++ new } ∧
      ∀ v ∈ new, v ∉ s.visited := by
  induction rs generalizing s with
  | nil => exact ⟨[], by simp [enqueueResources], by simp⟩
  | cons r rs ih =>
      obtain ⟨n1, he, hf⟩ := enqueueOne_spec s r
      obtain ⟨n2, he2, hf2⟩ := ih (enqueueOne s r)
      refine ⟨n1 ++ n2, ?_, ?_⟩
      · show (r :: rs).foldl enqueueOne s = _
        rw [List.foldl_cons]
        rw [show rs.foldl enqueueOne (enqueueOne s r) = enqueueResources (enqueueOne s r) rs from rfl]
        rw [he2, he]
        simp [List.append_assoc]
      · intro v hv
        rw [List.mem_append] at hv
        rcases hv with hv | hv
        · exact hf v hv
        · have := hf2 v hv
          rw [he] at this
          exact this

/-- The crawl invariant of the specification's data model. -/
def StateInv (opts : MirrorOptions) (s : MirrorState) : Prop :=
  (s.downloaded.length : Int) ≤ s.fileCount ∧ s.fileCount ≤ opts.maxFiles ∧
    ∀ p ∈ s.downloaded, p.1 ∈ s.visited

theorem processURL_ok_shape (env : MirrorEnv) (opts : MirrorOptions)
    (s : MirrorState) (u : String) (s' : MirrorState)
    (h : processURL env opts s u = .ok s') :
    ∃ new, s' = { s with downloaded := (u, GetLocalFilePath u opts.outputPath) :: s.downloaded
                         fileCount := s.fileCount + 1
                         pending := s.pending ++ new } ∧
      ∀ v ∈ new, v ∉ s.visited := by
  revert h
  unfold processURL
  cases hf : env.fetch u with
  | none => intro h; exact absurd h (by simp)
  | some resp =>
      dsimp only
      by_cases hs : resp.status ≠ 200
      · rw [if_pos hs]; intro h; exact absurd h (by simp)
      · rw [if_neg hs]
        by_cases hw : env.writeOk (GetLocalFilePath u opts.outputPath) = true
        · simp only [hw, Bool.not_true, Bool.false_eq_true, if_false]
          by_cases hh : (goContains resp.contentType "text/html" || goHasSuffix u ".html") = true
          · rw [if_pos hh]
            unfold extractHTMLResources
            cases hp : parseURL u with
            | none =>
                simp only [Option.map_none', Option.getD_none, Except.ok.injEq]
                intro h
                exact ⟨[], by rw [← h]; simp, by simp⟩
            | some base =>
                simp only [Option.map_some', Option.getD_some, Except.ok.injEq]
                intro h
                obtain ⟨new, he, hfr⟩ := enqueueResources_spec
                  (FilterResources (ParseHTML resp.body base) opts.rejectTypes opts.excludeDirs)
                  { s with downloaded := (u, GetLocalFilePath u opts.outputPath) :: s.downloaded
                           fileCount := s.fileCount + 1 }
                refine ⟨new, ?_, hfr⟩
                rw [← h, he]
          · rw [if_neg hh]
            by_cases hc : (goContains resp.contentType "text/css" || goHasSuffix u ".css") = true
            · rw [if_pos hc]
              unfold extractCSSResources
              cases hp : parseURL u with
              | none =>
                  simp only [Option.map_none', Option.getD_none, Except.ok.injEq]
                  intro h
                  exact ⟨[], by rw [← h]; simp, by simp⟩
              | some base =>
                  simp only [Option.map_some', Option.getD_some, Except.ok.injEq]
                  intro h
                  obtain ⟨new, he, hfr⟩ := enqueueResources_spec
                    (FilterResources (ParseCSS resp.body base) opts.rejectTypes opts.excludeDirs)
                    { s with downloaded := (u, GetLocalFilePath u opts.outputPath) :: s.downloaded
                             fileCount := s.fileCount + 1 }
                  refine ⟨new, ?_, hfr⟩
                  rw [← h, he]
            · rw [if_neg hc]
              simp only [Except.ok.injEq]
              intro h
              exact ⟨[], by rw [← h]; simp, by simp⟩
        · rw [Bool.not_eq_true] at hw
          simp only [hw, Bool.not_false, if_true]
          intro h
          exact absurd h (by simp)

/-- Go `mirrorStep` either leaves the state unchanged (cap reached or URL
already visited), or marks the URL visited and possibly records the
download and enqueues fresh URLs; newly enqueued URLs are never visited at
the instant they are appended. -/
theorem mirrorStep_shape (env : MirrorEnv) (opts : MirrorOptions)
    (s : MirrorState) (u : String) :
    mirrorStep env opts s u = s ∨
      (¬ s.fileCount ≥ opts.maxFiles ∧ u ∉ s.visited ∧
        (mirrorStep env opts s u = { s with visited := u :: s.visited } ∨
          ∃ new, mirrorStep env opts s u =
              { s with visited := u :: s.visited
                       downloaded := (u, GetLocalFilePath u opts.outputPath) :: s.downloaded
                       fileCount := s.fileCount + 1
                       pending := s.pending ++ new } ∧
            ∀ v ∈ new, v ∉ u :: s.visited)) := by
  unfold mirrorStep
  by_cases h1 : s.fileCount ≥ opts.maxFiles
  · exact Or.inl (by rw [if_pos h1])
  · rw [if_neg h1]
    by_cases h2 : u ∈ s.visited
    · exact Or.inl (by rw [if_pos h2])
    · rw [if_neg h2]
      refine Or.inr ⟨h1, h2, ?_⟩
      dsimp only
      cases hp : processURL env opts { s with visited := u :: s.visited } u with
      | error e => exact Or.inl rfl
      | ok s2 =>
          obtain ⟨new, he, hfr⟩ := processURL_ok_shape env opts _ u s2 hp
          exact Or.inr ⟨new, he, hfr⟩

theorem mirrorStep_visited_sub (env : MirrorEnv) (opts : MirrorOptions)
    (s : MirrorState) (u : String) :
    s.visited ⊆ (mirrorStep env opts s u).visited := by
  rcases mirrorStep_shape env opts s u with h | ⟨_, _, h | ⟨new, h, _⟩⟩ <;>
    rw [h] <;> intro x hx <;> simp [hx]

theorem mirrorStep_inv (env : MirrorEnv) (opts : MirrorOptions)
    (s : MirrorState) (u : String) (h : StateInv opts s) :
    StateInv opts (mirrorStep env opts s u) := by
  obtain ⟨hlen, hcap, hkeys⟩ := h
  rcases mirrorStep_shape env opts s u with hs | ⟨h1, _, hs | ⟨new, hs, _⟩⟩
  · rw [hs]; exact ⟨hlen, hcap, hkeys⟩
  · rw [hs]
    refine ⟨hlen, hcap, ?_⟩
    intro p hp
    exact List.mem_cons_of_mem u (hkeys p hp)
  · rw [hs]
    refine ⟨?_, ?_, ?_⟩
    · dsimp only
      simp only [List.length_cons]
      push_cast
      omega
    · dsimp only
      omega
    · dsimp only
      intro p hp
      rw [List.mem_cons] at hp
      rcases hp with rfl | hp
      · exact List.mem_cons_self u s.visited
      · exact List.mem_cons_of_mem u (hkeys p hp)

/-- C4 (amended): a URL is appended to `pending` only when, at the instant
of the append, it is not in `visited` — every crawl-loop iteration extends
`pending` only with URLs unvisited in its post-state.  (`pending` and
`visited` can still intersect transiently: a URL enqueued earlier in a
level is later marked visited while still pending, and is then skipped at
dispatch.) -/
theorem mirrorStep_pending_fresh (env : MirrorEnv) (opts : MirrorOptions)
    (s : MirrorState) (u : String) :
    ∃ new, (mirrorStep env opts s u).pending = s.pending ++ new ∧
      ∀ v ∈ new, v ∉ (mirrorStep env opts s u).visited := by
  rcases mirrorStep_shape env opts s u with hs | ⟨_, _, hs | ⟨new, hs, hfr⟩⟩
  · exact ⟨[], by rw [hs]; simp, by simp⟩
  · exact ⟨[], by rw [hs]; simp, by simp⟩
  · exact ⟨new, by rw [hs], by rw [hs]; exact hfr⟩

theorem mirrorTrace_head? (env : MirrorEnv) (opts : MirrorOptions)
    (n : Nat) (s : MirrorState) : (mirrorTrace env opts n s).head? = some s := by
  cases n with
  | zero => rfl
  | succ n =>
      unfold mirrorTrace
      by_cases h1 : s.fileCount ≥ opts.maxFiles
      · rw [if_pos h1]
        rfl
      · rw [if_neg h1]
        dsimp only
        split <;> rfl

theorem stateInv_clear_pending (opts : MirrorOptions) (s : MirrorState)
    (h : StateInv opts s) : StateInv opts { s with pending := [] } := h

/-- C3: throughout a mirror run — at every intermediate state of the crawl
— `downloaded.size ≤ fileCount ≤ MaxFiles` and the downloaded keys are a
subset of `visited` (the cap is checked before each URL is dispatched and
`fileCount` grows only on a successful save), and `visited` never shrinks
from each state to the next. -/
theorem mirrorTrace_invariants (env : MirrorEnv) (opts : MirrorOptions)
    (n : Nat) (s : MirrorState) (h : StateInv opts s) :
    (∀ t ∈ mirrorTrace env opts n s, StateInv opts t) ∧
      List.Chain' (fun a b => a.visited ⊆ b.visited) (mirrorTrace env opts n s) := by
  induction n generalizing s with
  | zero =>
      refine ⟨?_, List.chain'_singleton s⟩
      intro t ht
      rw [show mirrorTrace env opts 0 s = [s] from rfl, List.mem_singleton] at ht
      exact ht ▸ h
  | succ n ih =>
      unfold mirrorTrace
      by_cases h1 : s.fileCount ≥ opts.maxFiles
      · rw [if_pos h1]
        refine ⟨?_, List.chain'_singleton s⟩
        intro t ht
        rw [List.mem_singleton] at ht
        exact ht ▸ h
      · rw [if_neg h1]
        dsimp only
        have h0 : StateInv opts { s with pending := [] } := stateInv_clear_pending opts s h
        have hstep : ∀ a b, StateInv opts a → StateInv opts (mirrorStep env opts a b) :=
          fun a b ha => mirrorStep_inv env opts a b ha
        have hmono : ∀ (a : MirrorState) (b : String),
            a.visited ⊆ (mirrorStep env opts a b).visited :=
          fun a b => mirrorStep_visited_sub env opts a b
        have hInvTr : ∀ x ∈ scanStates (mirrorStep env opts) { s with pending := [] } s.pending,
            StateInv opts x :=
          mem_scanStates_inv hstep s.pending _ h0
        have hInvS1 : StateInv opts
            (List.foldl (mirrorStep env opts) { s with pending := [] } s.pending) :=
          foldl_inv hstep s.pending _ h0
        have hChainTr : List.Chain' (fun a b => a.visited ⊆ b.visited)
            (scanStates (mirrorStep env opts) { s with pending := [] } s.pending) :=
          chain'_scanStates hmono s.pending _
        split
        · refine ⟨?_, ?_⟩
          · intro t ht
            rw [List.mem_cons] at ht
            rcases ht with rfl | ht
            · exact h
            · exact hInvTr t ht
          · rw [List.chain'_cons']
            refine ⟨?_, hChainTr⟩
            intro y hy
            rw [head?_scanStates] at hy
            cases hy
            exact fun x hx => hx
        · obtain ⟨ihInv, ihChain⟩ := ih _ hInvS1
          refine ⟨?_, ?_⟩
          · intro t ht
            rw [List.mem_cons, List.mem_append] at ht
            rcases ht with rfl | ht | ht
            · exact h
            · exact hInvTr t ht
            · exact ihInv t ht
          · rw [List.chain'_cons']
            refine ⟨?_, ?_⟩
            · intro y hy
              obtain ⟨x, xs, hx⟩ := List.exists_cons_of_ne_nil
                (scanStates_ne_nil (mirrorStep env opts) { s with pending := [] } s.pending)
              rw [hx, List.cons_append, List.head?_cons] at hy
              cases hy
              have : (scanStates (mirrorStep env opts) { s with pending := [] } s.pending).head? =
                  some { s with pending := [] } :=
                head?_scanStates (mirrorStep env opts) _ s.pending
              rw [hx, List.head?_cons] at this
              cases this
              exact fun z hz => hz
            · rw [List.chain'_append]
              refine ⟨hChainTr, ihChain, ?_⟩
              intro x hx y hy
              rw [getLast?_scanStates] at hx
              rw [mirrorTrace_head?] at hy
              cases hx
              cases hy
              exact fun z hz => hz

theorem mirrorGoE_eq_ok (env : MirrorEnv) (opts : MirrorOptions) :
    ∀ (n : Nat) (s : MirrorState), mirrorGoE env opts n s = .ok (mirrorGo env opts n s) := by
  intro n
  induction n with
  | zero => intro s; rfl
  | succ n ih =>
      intro s
      unfold mirrorGoE mirrorGo
      by_cases h1 : s.fileCount ≥ opts.maxFiles
      · rw [if_pos h1, if_pos h1]
      · rw [if_neg h1, if_neg h1]
        dsimp only
        by_cases h2 : (List.foldl (mirrorStep env opts) { s with pending := [] } s.pending).pending.isEmpty = true
      <;> simp only [h2, if_true, if_false, Bool.false_eq_true]
        · exact ih _

/-! ## A small concrete site, used to instantiate run-level theorems

Seed `http://h/` links to `/v` and `/u`; page `/v` links to `/u` again.
This realises the transient frontier/visited overlap: while the second
level is processed, `/u` is enqueued by `/v`'s page and then reached in the
level snapshot and marked visited while still sitting in `pending`. -/

def siteBase : GoURL :=
  { scheme := "http", host := "h", path := "/", query := "", fragment := "" }

def siteEnv : MirrorEnv :=
  { fetch := fun u =>
      if u = "http://h/" then
        some { status := 200, contentType := "text/html",
               body := "<a href=\"/v\"><a href=\"/u\">" }
      else if u = "http://h/v" then
        some { status := 200, contentType := "text/html", body := "<a href=\"/u\">" }
      else if u = "http://h/u" then
        some { status := 200, contentType := "text/html", body := "done" }
      else none
    writeOk := fun _ => true
    mkdirOk := true }

def siteOpts : MirrorOptions :=
  { rejectTypes := [], excludeDirs := [], convertLinks := false, outputPath := "h",
    rateLimit := "", maxDepth := 5, maxFiles := 1000 }

def siteInit : MirrorState := initState "http://h/" siteBase

/-! ## C1: the URL → local-path function -/

/-- C1: `GetLocalFilePath` is a pure function agreeing with the path that
the link rewriter recomputes (both are `convertURLPathToLocalPath` of the
parsed path), it strips the leading separator, appends `index.html` to
empty or directory-like paths and joins onto the output directory, and the
specification's two examples hold for every output directory. -/
theorem getLocalFilePath_spec (u od : String) (pu : GoURL)
    (h : parseURL u = some pu) :
    GetLocalFilePath u od = convertURLPathToLocalPath pu.path od ∧
    convertURLPathToLocalPath pu.path od =
      (let stripped : String :=
        if goHasPrefix pu.path "/" then (⟨pu.path.data.drop 1⟩ : String) else pu.path
       if stripped = "" ∨ goHasSuffix stripped "/" then
        goJoin od (goJoin stripped "index.html")
       else goJoin od stripped) ∧
    GetLocalFilePath "http://ex.com/a/" od = goJoin od "a/index.html" ∧
    GetLocalFilePath "http://ex.com/a/b.css" od = goJoin od "a/b.css" := by
  refine ⟨?_, ?_, rfl, rfl⟩
  · unfold GetLocalFilePath
    rw [h]
  · dsimp only [convertURLPathToLocalPath, goFromSlash]
    by_cases hc :
        ((if goHasPrefix pu.path "/" then (⟨pu.path.data.drop 1⟩ : String) else pu.path) = "" ∨
          goHasSuffix
            (if goHasPrefix pu.path "/" then (⟨pu.path.data.drop 1⟩ : String) else pu.path) "/")
    · rw [if_pos hc, if_pos hc]
    · rw [if_neg hc, if_neg hc]

/-- Witness for C1 at `u = http://ex.com/a/`, `outDir = "out"`. -/
theorem getLocalFilePath_spec_witness :
    GetLocalFilePath "http://ex.com/a/" "out" = goJoin "out" "a/index.html" :=
  (getLocalFilePath_spec "http://ex.com/a/" "out"
    { scheme := "http", host := "ex.com", path := "/a/", query := "", fragment := "" }
    (by decide)).2.2.1

/-! ## C2: the resource filter -/

/-- The specification's example resource. -/
def logoResource : Resource :=
  { url := "http://ex.com/IMG/Logo.PNG", rtype := .Image, original := "" }

/-- C2: `FilterResources` keeps exactly the resources whose URL matches no
reject substring (case-insensitively) and no exclude substring (on the raw
URL), preserving relative order (the output is a sublist of the input);
the `IMG/Logo.PNG` examples behave as specified. -/
theorem filterResources_spec (rs : List Resource) (rej ex : List String) :
    List.Sublist (FilterResources rs rej ex) rs ∧
    (∀ r : Resource, r ∈ FilterResources rs rej ex ↔
        r ∈ rs ∧ rejectedBy r rej = false ∧ excludedBy r ex = false) ∧
    FilterResources [logoResource] ["png"] [] = [] ∧
    FilterResources [logoResource] [] ["IMG"] = [] ∧
    FilterResources [logoResource] [] ["img"] = [logoResource] := by
  refine ⟨List.filter_sublist _, ?_, by decide, by decide, by decide⟩
  intro r
  rw [FilterResources, List.mem_filter]
  simp only [Bool.and_eq_true, Bool.not_eq_true', and_assoc]

/-! ## C5: fetch-and-save error behaviour -/

/-- Whether a Go-style `(value, error)` result carries no error. -/
def okB {ε α : Type} : Except ε α → Bool
  | .ok _ => true
  | .error _ => false

/-- An environment whose server answers every request with `201 Created`. -/
def env201 : MirrorEnv :=
  { fetch := fun _ => some { status := 201, contentType := "text/plain", body := "created" }
    writeOk := fun _ => true
    mkdirOk := true }

/-- C5 is refuted: the code tests `StatusCode != http.StatusOK`, not "not
2xx" — a `201` response is 2xx yet `processURL` returns an error. -/
theorem processURL_2xx_counterexample :
    env201.fetch "http://h/a" =
      some { status := 201, contentType := "text/plain", body := "created" } ∧
    (200 ≤ (201 : Int) ∧ (201 : Int) < 300) ∧
    okB (processURL env201 siteOpts siteInit "http://h/a") = false := by
  exact ⟨rfl, by decide, by decide⟩

/-- C5 (amended): `processURL` succeeds iff the fetch succeeded with status
exactly `200` and the local write succeeded; on success it saves at the
deterministic local path and records the URL in `downloaded`; when it
fails, the crawl loop keeps only the visited mark, leaving `downloaded`
unchanged (no retry). -/
theorem processURL_spec (env : MirrorEnv) (opts : MirrorOptions)
    (s : MirrorState) (u : String) :
    (okB (processURL env opts s u) = true ↔
      ∃ r, env.fetch u = some r ∧ r.status = 200 ∧
        env.writeOk (GetLocalFilePath u opts.outputPath) = true) ∧
    (∀ s', processURL env opts s u = .ok s' →
      s'.downloaded = (u, GetLocalFilePath u opts.outputPath) :: s.downloaded ∧
        s'.fileCount = s.fileCount + 1 ∧ s'.visited = s.visited) ∧
    (¬ s.fileCount ≥ opts.maxFiles → u ∉ s.visited →
      okB (processURL env opts { s with visited := u :: s.visited } u) = false →
      mirrorStep env opts s u = { s with visited := u :: s.visited }) := by
  refine ⟨?_, ?_, ?_⟩
  · unfold processURL
    cases hf : env.fetch u with
    | none =>
        dsimp only
        constructor
        · intro h; simp [okB] at h
        · rintro ⟨r, hr, -, -⟩
          cases hr
    | some resp =>
        dsimp only
        by_cases hs : resp.status ≠ 200
        · rw [if_pos hs]
          constructor
          · intro h; simp [okB] at h
          · rintro ⟨r, hr, h200, -⟩
            injection hr with hr
            subst hr
            exact absurd h200 hs
        · rw [if_neg hs]
          by_cases hw : env.writeOk (GetLocalFilePath u opts.outputPath) = true
          · simp only [hw, Bool.not_true, Bool.false_eq_true, if_false]
            constructor
            · intro _
              exact ⟨resp, rfl, not_ne_iff.mp hs, trivial⟩
            · intro _
              split
              · rfl
              · split <;> rfl
          · rw [Bool.not_eq_true] at hw
            simp only [hw, Bool.not_false, if_true]
            constructor
            · intro h; simp [okB] at h
            · rintro ⟨r, -, -, hwr⟩
              exact Bool.noConfusion hwr
  · intro s' h
    obtain ⟨new, he, -⟩ := processURL_ok_shape env opts s u s' h
    subst he
    exact ⟨rfl, rfl, rfl⟩
  · intro h1 h2 hfail
    unfold mirrorStep
    rw [if_neg h1, if_neg h2]
    dsimp only
    cases hp : processURL env opts { s with visited := u :: s.visited } u with
    | error e => rfl
    | ok s2 =>
        rw [hp] at hfail
        simp [okB] at hfail

/-- Witness for C5's amended behaviour: a successful fetch on the example
site, and a crawl step on the all-201 server that marks the URL visited
while leaving `downloaded` untouched. -/
theorem processURL_spec_witness :
    okB (processURL siteEnv siteOpts siteInit "http://h/") = true ∧
    mirrorStep env201 siteOpts siteInit "http://h/a" =
      { siteInit with visited := ["http://h/a"] } :=
  ⟨(processURL_spec siteEnv siteOpts siteInit "http://h/").1.mpr
      ⟨{ status := 200, contentType := "text/html", body := "<a href=\"/v\"><a href=\"/u\">" },
        by decide, rfl, rfl⟩,
    (processURL_spec env201 siteOpts siteInit "http://h/a").2.2
      (by decide) (by decide) (by decide)⟩

/-! ## C3 witness, C4 counterexample -/

instance (opts : MirrorOptions) (s : MirrorState) : Decidable (StateInv opts s) := by
  unfold StateInv
  infer_instance

/-- Witness for C3: the invariant holds at the final state of the example
crawl. -/
theorem mirrorTrace_invariants_witness :
    StateInv siteOpts (mirrorGo siteEnv siteOpts 5 siteInit) :=
  (mirrorTrace_invariants siteEnv siteOpts 5 siteInit (by decide)).1 _ (by decide)

/-- C4 is refuted: on the example site the crawl reaches a state in which
`http://h/u` sits in `pending` (enqueued while unvisited, from page `/v`)
and is simultaneously in `visited` (it was just dispatched from the level
snapshot), so the frontier is not disjoint from `visited` at every
instant. -/
theorem pending_visited_overlap_counterexample :
    ∃ t ∈ mirrorTrace siteEnv siteOpts 5 siteInit, ∃ u ∈ t.pending, u ∈ t.visited := by
  decide

/-! ## C8: fatal versus swallowed errors -/

/-- C8: `MirrorWebsite` returns an error exactly when the seed URL fails to
parse or the output root cannot be created; the crawl itself never returns
an error (per-URL failures are logged and swallowed) and on success the
call returns the fully crawled state and the coerced options. -/
theorem mirrorWebsite_error_iff (env : MirrorEnv) (urlStr : String)
    (opts : MirrorOptions) :
    (okB (MirrorWebsite env urlStr opts) = true ↔
      (parseURL urlStr).isSome = true ∧ env.mkdirOk = true) ∧
    (∀ b, parseURL urlStr = some b → env.mkdirOk = true →
      MirrorWebsite env urlStr opts =
        .ok (mirrorGo env (applyDefaults b opts) (applyDefaults b opts).maxDepth.toNat
              (initState urlStr b), applyDefaults b opts)) := by
  constructor
  · unfold MirrorWebsite
    cases hp : parseURL urlStr with
    | none =>
        dsimp only
        constructor
        · intro h; simp [okB] at h
        · rintro ⟨hsome, -⟩; simp at hsome
    | some b =>
        dsimp only
        by_cases hmk : env.mkdirOk = true
        · simp only [hmk, Bool.not_true, Bool.false_eq_true, if_false]
          rw [mirrorGoE_eq_ok]
          dsimp only
          constructor
          · intro _; exact ⟨rfl, by trivial⟩
          · intro _; rfl
        · rw [Bool.not_eq_true] at hmk
          simp only [hmk, Bool.not_false, if_true]
          constructor
          · intro h; simp [okB] at h
          · rintro ⟨-, hmk2⟩
            exact Bool.noConfusion hmk2
  · intro b hb hmk
    unfold MirrorWebsite
    rw [hb]
    dsimp only
    simp only [hmk, Bool.not_true, Bool.false_eq_true, if_false]
    rw [mirrorGoE_eq_ok]

/-- Witness for C8: a successful run of the example site returns the final
crawl state. -/
theorem mirrorWebsite_error_iff_witness :
    MirrorWebsite siteEnv "http://h/" siteOpts =
      .ok (mirrorGo siteEnv (applyDefaults siteBase siteOpts)
            (applyDefaults siteBase siteOpts).maxDepth.toNat (initState "http://h/" siteBase),
          applyDefaults siteBase siteOpts) :=
  (mirrorWebsite_error_iff siteEnv "http://h/" siteOpts).2 siteBase (by decide) rfl

/-! ## C10: default coercion of zero-valued options -/

/-- C10: `MirrorWebsite` coerces zero-valued bounds before crawling: a run
with `MaxDepth = 0` is the run with `MaxDepth = 5`, with `MaxFiles = 0` the
run with `MaxFiles = 1000`, and with an empty `OutputPath` the run with the
seed's host; after coercion neither bound is zero. -/
theorem mirrorWebsite_defaults (env : MirrorEnv) (urlStr : String)
    (opts : MirrorOptions) (b : GoURL) (h : parseURL urlStr = some b) :
    MirrorWebsite env urlStr { opts with maxDepth := 0 } =
      MirrorWebsite env urlStr { opts with maxDepth := 5 } ∧
    MirrorWebsite env urlStr { opts with maxFiles := 0 } =
      MirrorWebsite env urlStr { opts with maxFiles := 1000 } ∧
    MirrorWebsite env urlStr { opts with outputPath := "" } =
      MirrorWebsite env urlStr { opts with outputPath := b.host } ∧
    (applyDefaults b opts).maxDepth ≠ 0 ∧ (applyDefaults b opts).maxFiles ≠ 0 := by
  refine ⟨rfl, rfl, ?_, ?_, ?_⟩
  · have ho : applyDefaults b { opts with outputPath := "" } =
        applyDefaults b { opts with outputPath := b.host } := by
      unfold applyDefaults
      dsimp only
      by_cases hb : b.host = ""
      · rw [if_pos rfl, if_pos hb, hb]
      · rw [if_pos rfl, if_neg hb]
    unfold MirrorWebsite
    rw [h]
    dsimp only
    rw [ho]
  · unfold applyDefaults
    dsimp only
    by_cases hd : opts.maxDepth = 0
    · simp [hd]
    · simp [hd]
  · unfold applyDefaults
    dsimp only
    by_cases hd : opts.maxFiles = 0
    · simp [hd]
    · simp [hd]

/-- Witness for C10 on the example site. -/
theorem mirrorWebsite_defaults_witness :
    MirrorWebsite siteEnv "http://h/" { siteOpts with maxDepth := 0 } =
      MirrorWebsite siteEnv "http://h/" { siteOpts with maxDepth := 5 } :=
  (mirrorWebsite_defaults siteEnv "http://h/" siteOpts siteBase (by decide)).1

/-! ## C6: resource classification -/

theorem containsL_of_isPrefixOf (s pat : List Char) (h : pat.isPrefixOf s = true) :
    containsL s pat = true := by
  unfold containsL
  split
  · rfl
  · next hn => exact absurd h hn

theorem containsL_of_suffix (s pat : List Char) (h : pat <:+ s) :
    containsL s pat = true := by
  obtain ⟨t, rfl⟩ := h
  induction t with
  | nil =>
      rw [List.nil_append]
      exact containsL_of_isPrefixOf pat pat (List.isPrefixOf_iff_prefix.mpr (List.prefix_refl pat))
  | cons c t ih =>
      rw [List.cons_append, containsL_cons, ih, Bool.or_true]

theorem goContains_of_goHasSuffix (s pat : String) (h : goHasSuffix s pat = true) :
    goContains s pat = true :=
  containsL_of_suffix s.data pat.data (List.isSuffixOf_iff_suffix.mp h)

/-- Modelled from the spec: the extension of a URL — the suffix of its
final `/`-segment starting at its last dot (empty when the segment has no
dot).  This is the notion the claim's "extension heuristic" refers to. -/
def urlExt (u : String) : String :=
  let seg := (u.data.reverse.takeWhile (fun c => c ≠ '/')).reverse
  if '.' ∈ seg then (⟨'.' :: (seg.reverse.takeWhile (fun c => c ≠ '.')).reverse⟩ : String)
  else ""

/-- Modelled from the spec: the claim's extension-based classifier
(`.css` → stylesheet, `.js` → script, common image extensions → image,
`.html`/`.htm`/no extension → page, any other extension → other), stated
for comparison with the code's `determineResourceType`. -/
def specResourceType (u : String) : ResourceType :=
  let e := goToLower (urlExt u)
  if e = ".css" then .CSS
  else if e = ".js" then .JS
  else if e = ".png" ∨ e = ".jpg" ∨ e = ".jpeg" ∨ e = ".gif" ∨ e = ".svg" ∨ e = ".webp" then
    .Image
  else if e = ".html" ∨ e = ".htm" ∨ e = "" then .HTML
  else .Other

/-- C6 is refuted: `determineResourceType` tests substring containment on
the whole URL, not the extension.  `http://ex.com/data.json` has extension
`.json` — not one of the listed extensions, so the claimed heuristic says
`other` — but the code finds the substring `.js` and classifies it as a
script. -/
theorem determineResourceType_counterexample :
    determineResourceType "http://ex.com/data.json" = ResourceType.JS ∧
    urlExt "http://ex.com/data.json" = ".json" ∧
    specResourceType "http://ex.com/data.json" = ResourceType.Other ∧
    determineResourceType "http://ex.com/data.json" ≠
      specResourceType "http://ex.com/data.json" := by
  decide

/-- C6 (amended): classification is by case-insensitive substring
containment on the full URL, checked in the order `.css`, `.js`, image
extensions, then `.html`/`.htm`/dot-free, with `other` as the fallback;
in particular a URL whose lower-cased form ends in `.css` is always
classified stylesheet. -/
theorem determineResourceType_spec (u : String) :
    (determineResourceType u = .CSS ↔ goContains (goToLower u) ".css" = true) ∧
    (determineResourceType u = .JS ↔
      goContains (goToLower u) ".css" = false ∧ goContains (goToLower u) ".js" = true) ∧
    (determineResourceType u = .Image ↔
      goContains (goToLower u) ".css" = false ∧ goContains (goToLower u) ".js" = false ∧
        (goContains (goToLower u) ".png" || goContains (goToLower u) ".jpg" ||
          goContains (goToLower u) ".jpeg" || goContains (goToLower u) ".gif" ||
          goContains (goToLower u) ".svg" || goContains (goToLower u) ".webp") = true) ∧
    (determineResourceType u = .HTML ↔
      goContains (goToLower u) ".css" = false ∧ goContains (goToLower u) ".js" = false ∧
        (goContains (goToLower u) ".png" || goContains (goToLower u) ".jpg" ||
          goContains (goToLower u) ".jpeg" || goContains (goToLower u) ".gif" ||
          goContains (goToLower u) ".svg" || goContains (goToLower u) ".webp") = false ∧
        (goContains (goToLower u) ".html" || goContains (goToLower u) ".htm" ||
          !goContains (goToLower u) ".") = true) ∧
    (determineResourceType u = .Other ↔
      goContains (goToLower u) ".css" = false ∧ goContains (goToLower u) ".js" = false ∧
        (goContains (goToLower u) ".png" || goContains (goToLower u) ".jpg" ||
          goContains (goToLower u) ".jpeg" || goContains (goToLower u) ".gif" ||
          goContains (goToLower u) ".svg" || goContains (goToLower u) ".webp") = false ∧
        (goContains (goToLower u) ".html" || goContains (goToLower u) ".htm" ||
          !goContains (goToLower u) ".") = false) ∧
    (goHasSuffix (goToLower u) ".css" = true → determineResourceType u = .CSS) := by
  have G6 : goHasSuffix (goToLower u) ".css" = true → determineResourceType u = .CSS := by
    intro h
    have hc := goContains_of_goHasSuffix _ _ h
    unfold determineResourceType
    simp [hc]
  have tree : (determineResourceType u = .CSS ↔ goContains (goToLower u) ".css" = true) ∧
      (determineResourceType u = .JS ↔
        goContains (goToLower u) ".css" = false ∧ goContains (goToLower u) ".js" = true) ∧
      (determineResourceType u = .Image ↔
        goContains (goToLower u) ".css" = false ∧ goContains (goToLower u) ".js" = false ∧
          (goContains (goToLower u) ".png" || goContains (goToLower u) ".jpg" ||
            goContains (goToLower u) ".jpeg" || goContains (goToLower u) ".gif" ||
            goContains (goToLower u) ".svg" || goContains (goToLower u) ".webp") = true) ∧
      (determineResourceType u = .HTML ↔
        goContains (goToLower u) ".css" = false ∧ goContains (goToLower u) ".js" = false ∧
          (goContains (goToLower u) ".png" || goContains (goToLower u) ".jpg" ||
            goContains (goToLower u) ".jpeg" || goContains (goToLower u) ".gif" ||
            goContains (goToLower u) ".svg" || goContains (goToLower u) ".webp") = false ∧
          (goContains (goToLower u) ".html" || goContains (goToLower u) ".htm" ||
            !goContains (goToLower u) ".") = true) ∧
      (determineResourceType u = .Other ↔
        goContains (goToLower u) ".css" = false ∧ goContains (goToLower u) ".js" = false ∧
          (goContains (goToLower u) ".png" || goContains (goToLower u) ".jpg" ||
            goContains (goToLower u) ".jpeg" || goContains (goToLower u) ".gif" ||
            goContains (goToLower u) ".svg" || goContains (goToLower u) ".webp") = false ∧
          (goContains (goToLower u) ".html" || goContains (goToLower u) ".htm" ||
            !goContains (goToLower u) ".") = false) := by
    unfold determineResourceType
    by_cases c1 : goContains (goToLower u) ".css" = true <;>
      by_cases c2 : goContains (goToLower u) ".js" = true <;>
        by_cases c3 : (goContains (goToLower u) ".png" || goContains (goToLower u) ".jpg" ||
          goContains (goToLower u) ".jpeg" || goContains (goToLower u) ".gif" ||
          goContains (goToLower u) ".svg" || goContains (goToLower u) ".webp") = true <;>
          by_cases c4 : (goContains (goToLower u) ".html" || goContains (goToLower u) ".htm" ||
            !goContains (goToLower u) ".") = true <;>
            simp [c1, c2, c3, c4]
  exact ⟨tree.1, tree.2.1, tree.2.2.1, tree.2.2.2.1, tree.2.2.2.2, G6⟩

/-- Witness for C6's amended classifier: the suffix case at a concrete
stylesheet URL. -/
theorem determineResourceType_spec_witness :
    determineResourceType "http://ex.com/style.css" = ResourceType.CSS :=
  (determineResourceType_spec "http://ex.com/style.css").2.2.2.2.2 (by decide)

/-! ## C7: idempotence of the link rewriter -/

/-- The seed base URL `http://e` of the rewriting examples. -/
def rewriteBase : GoURL :=
  { scheme := "http", host := "e", path := "", query := "", fragment := "" }

/-- A page whose body text contains `http://e/http://e/x`: replacing the
absolute URL `http://e/x` (from the `href`) inside that run creates a new
literal occurrence of `http://e/x` in the first pass's output. -/
def selfRefPage : String := "<a href=\"http://e/x\">http://e/http://e/x</a>"

/-- C7 is refuted: a second run of the link rewriter over the first run's
output performs a further substitution on `selfRefPage`, because the first
pass's replacements created a fresh literal occurrence of an absolute
same-host URL. -/
theorem convertLinks_not_idempotent :
    ConvertLinks (ConvertLinks selfRefPage rewriteBase "o" "o/index.html")
        rewriteBase "o" "o/index.html" ≠
      ConvertLinks selfRefPage rewriteBase "o" "o/index.html" := by
  decide

/-- C7 (amended): a rewriting pass is a no-op on content in which no
extracted same-host resource URL with a nonempty relative path occurs
literally — in particular a second pass is byte-identical whenever the
first pass's output retains no such absolute URL (the situation the
specification describes), but not on content where a replacement creates a
fresh occurrence. -/
theorem convertLinks_fixpoint (c : String) (b : GoURL) (od cf : String)
    (h : ∀ r ∈ ParseHTML c b, convertURLToRelativePath r.url b od cf ≠ "" →
      goContains c r.url = false) :
    ConvertLinks c b od cf = c := by
  unfold ConvertLinks
  suffices H : ∀ rs : List Resource,
      (∀ r ∈ rs, convertURLToRelativePath r.url b od cf ≠ "" → goContains c r.url = false) →
      List.foldl (fun acc r =>
        let rel := convertURLToRelativePath r.url b od cf
        if rel ≠ "" then goReplaceAll acc r.url rel else acc) c rs = c by
    exact H (ParseHTML c b) h
  intro rs
  induction rs with
  | nil => intro _; rfl
  | cons r rs ih =>
      intro hrs
      rw [List.foldl_cons]
      dsimp only
      have hstep : (if convertURLToRelativePath r.url b od cf ≠ "" then
          goReplaceAll c r.url (convertURLToRelativePath r.url b od cf) else c) = c := by
        by_cases hrel : convertURLToRelativePath r.url b od cf = ""
        · rw [if_neg (by simp [hrel])]
        · rw [if_pos hrel]
          have hcon := hrs r (List.mem_cons_self r rs) hrel
          apply goReplaceAll_of_not_contains
          · intro hurl
            rw [hurl] at hcon
            have hemp : goContains c "" = true := containsL_nil c.data
            rw [hemp] at hcon
            exact Bool.noConfusion hcon
          · exact hcon
      rw [hstep]
      exact ih (fun r' hr' => hrs r' (List.mem_cons_of_mem r hr'))

/-- A page whose only reference is already relative: its resolved absolute
URL occurs nowhere in the text. -/
def relRefPage : String := "<a href=\"p.html\">"

/-- Witness for C7's amended no-op condition. -/
theorem convertLinks_fixpoint_witness :
    ConvertLinks relRefPage rewriteBase "o" "o/index.html" = relRefPage :=
  convertLinks_fixpoint relRefPage rewriteBase "o" "o/index.html" (by decide)

/-! ## C9: the mirror rate-limit parser -/

theorem lowerChar_of_isDigit (c : Char) (h : isDigitChar c = true) : lowerChar c = c := by
  simp only [isDigitChar, decide_eq_true_eq] at h
  unfold lowerChar
  rw [if_neg]
  intro hc
  omega

theorem isGoSpace_of_isDigit (c : Char) (h : isDigitChar c = true) : isGoSpace c = false := by
  unfold isGoSpace
  rw [decide_eq_false_iff_not]
  intro hc
  rcases hc with rfl | rfl | rfl | rfl | rfl | rfl <;> exact Bool.noConfusion h

theorem isDigit_ne (c x : Char) (h : isDigitChar c = true) (hx : isDigitChar x = false) :
    c ≠ x := by
  intro he
  subst he
  rw [h] at hx
  exact Bool.noConfusion hx

theorem dropWhile_eq_self {α : Type} (p : α → Bool) (l : List α)
    (h : ∀ c ∈ l, p c = false) : l.dropWhile p = l := by
  cases l with
  | nil => rfl
  | cons c t =>
      rw [List.dropWhile_cons, h c (List.mem_cons_self c t)]
      simp

theorem trimSpaceL_eq_self (l : List Char) (h : ∀ c ∈ l, isGoSpace c = false) :
    trimSpaceL l = l := by
  unfold trimSpaceL
  rw [dropWhile_eq_self _ _ h,
    dropWhile_eq_self _ _ (fun c hc => h c (List.mem_reverse.mp hc)),
    List.reverse_reverse]

theorem lowerL_eq_self (l : List Char) (h : ∀ c ∈ l, lowerChar c = c) : lowerL l = l := by
  unfold lowerL
  induction l with
  | nil => rfl
  | cons c t ih =>
      rw [List.map_cons, h c (List.mem_cons_self c t),
        ih (fun x hx => h x (List.mem_cons_of_mem c hx))]

theorem takeWhile_append_all {α : Type} (p : α → Bool) (l₁ l₂ : List α)
    (h : ∀ c ∈ l₁, p c = true) :
    (l₁ ++ l₂).takeWhile p = l₁ ++ l₂.takeWhile p := by
  induction l₁ with
  | nil => rfl
  | cons c t ih =>
      rw [List.cons_append, List.takeWhile_cons, h c (List.mem_cons_self c t)]
      simp only [if_true]
      rw [ih (fun x hx => h x (List.mem_cons_of_mem c hx))]
      rfl

theorem takeWhile_nil_of_head {α : Type} (p : α → Bool) (l : List α)
    (h : ∀ x, l.head? = some x → p x = false) : l.takeWhile p = [] := by
  cases l with
  | nil => rfl
  | cons c t =>
      rw [List.takeWhile_cons, h c rfl]
      simp

/-- Go `%f` scanning of a pure digit string followed by a non-numeric
remainder: the digits are consumed and valued, the remainder is left. -/
theorem parseFloatL_digits (ds rest : List Char) (hne : ds ≠ [])
    (hd : ∀ c ∈ ds, isDigitChar c = true)
    (hr : ∀ x, rest.head? = some x → isDigitChar x = false ∧ x ≠ '.') :
    parseFloatL (ds ++ rest) = some ((digitsVal ds : ℚ), rest) := by
  obtain ⟨d, ds', rfl⟩ := List.exists_cons_of_ne_nil hne
  have hd0 : isDigitChar d = true := hd d (List.mem_cons_self d ds')
  have hdm : d ≠ '-' := isDigit_ne d '-' hd0 (by decide)
  have hdp : d ≠ '+' := isDigit_ne d '+' hd0 (by decide)
  unfold parseFloatL
  dsimp only
  simp only [List.cons_append, List.head?_cons]
  simp only [eq_false (show ¬(some d = some '-') from by simp [hdm]),
    eq_false (show ¬(some d = some '+') from by simp [hdp]),
    false_or, or_false, if_false]
  simp only [← List.cons_append]
  rw [takeWhile_append_all isDigitChar (d :: ds') rest hd,
    takeWhile_nil_of_head isDigitChar rest (fun x hx => (hr x hx).1),
    List.append_nil, List.drop_left]
  rw [if_neg (show ¬ rest.head? = some '.' from fun hx => (hr '.' hx).2 rfl)]
  rw [if_neg (show ¬ (d :: ds') = ([] : List Char) from by simp)]
  rw [one_mul]

/-- C9 (amended): the mirror's rate parser recognises only the `k` and `m`
suffixes with base-1024 multipliers.  For a positive digit string `N`:
`"Nk"` yields N·1024 bytes/second, `"Nm"` yields N·1024² bytes/second, but
`"Ng"` falls through to the plain-number branch (the `g` is scanned past
and ignored), yielding N bytes/second, the same as the suffix-free `"N"`;
non-positive rates are rejected.  The limiter value is bytesPerSecond/1024
sustained requests per second with burst 1. -/
theorem parseRateLimitSimple_spec (ds : List Char) (hne : ds ≠ [])
    (hd : ∀ c ∈ ds, isDigitChar c = true) (hpos : 0 < digitsVal ds) :
    parseRateLimitSimple ⟨ds ++ ['k']⟩ = .ok ((digitsVal ds : ℚ), 1) ∧
    parseRateLimitSimple ⟨ds ++ ['m']⟩ = .ok ((digitsVal ds : ℚ) * 1024, 1) ∧
    parseRateLimitSimple ⟨ds ++ ['g']⟩ = .ok ((digitsVal ds : ℚ) / 1024, 1) ∧
    parseRateLimitSimple ⟨ds⟩ = .ok ((digitsVal ds : ℚ) / 1024, 1) ∧
    okB (parseRateLimitSimple "0") = false := by
  have hvpos : (0 : ℚ) < (digitsVal ds : ℚ) := by exact_mod_cast hpos
  have h1024 : (0 : ℚ) < 1024 := by norm_num
  have hNorm : ∀ x : Char, isGoSpace x = false → lowerChar x = x →
      goToLower (goTrimSpace (⟨ds ++ [x]⟩ : String)) = (⟨ds ++ [x]⟩ : String) := by
    intro x hx1 hx2
    have hsp : ∀ c ∈ ds ++ [x], isGoSpace c = false := by
      intro c hc
      rw [List.mem_append] at hc
      rcases hc with hc | hc
      · exact isGoSpace_of_isDigit c (hd c hc)
      · rw [List.mem_singleton] at hc
        exact hc ▸ hx1
    have hlw : ∀ c ∈ ds ++ [x], lowerChar c = c := by
      intro c hc
      rw [List.mem_append] at hc
      rcases hc with hc | hc
      · exact lowerChar_of_isDigit c (hd c hc)
      · rw [List.mem_singleton] at hc
        exact hc ▸ hx2
    show (⟨lowerL (trimSpaceL (ds ++ [x]))⟩ : String) = (⟨ds ++ [x]⟩ : String)
    rw [trimSpaceL_eq_self _ hsp, lowerL_eq_self _ hlw]
  have hNorm0 : goToLower (goTrimSpace (⟨ds⟩ : String)) = (⟨ds⟩ : String) := by
    show (⟨lowerL (trimSpaceL ds)⟩ : String) = (⟨ds⟩ : String)
    rw [trimSpaceL_eq_self _ (fun c hc => isGoSpace_of_isDigit c (hd c hc)),
      lowerL_eq_self _ (fun c hc => lowerChar_of_isDigit c (hd c hc))]
  have hsuf : ∀ x y : Char, goHasSuffix (⟨ds ++ [x]⟩ : String) (⟨[y]⟩ : String) = (y == x) := by
    intro x y
    show [y].isSuffixOf (ds ++ [x]) = (y == x)
    simp [List.isSuffixOf, List.reverse_append, List.isPrefixOf]
  obtain ⟨L, b, hLb⟩ : ∃ L b, ds = L ++ [b] := by
    rcases List.eq_nil_or_concat ds with rfl | ⟨L, b, h⟩
    · exact absurd rfl hne
    · exact ⟨L, b, by rw [h, List.concat_eq_append]⟩
  have hb : isDigitChar b = true := hd b (by rw [hLb]; simp)
  have hsufD : ∀ y : Char, isDigitChar y = false → goHasSuffix (⟨ds⟩ : String) (⟨[y]⟩ : String) = false := by
    intro y hy
    rw [hLb]
    show [y].isSuffixOf (L ++ [b]) = false
    simp only [List.isSuffixOf, List.reverse_append, List.reverse_singleton,
      List.singleton_append, List.isPrefixOf, Bool.and_eq_false_iff]
    left
    rw [beq_eq_false_iff_ne]
    exact fun he => isDigit_ne b y hb hy he.symm
  have hrK : ∀ x : Char, ([('k' : Char)] : List Char).head? = some x →
      isDigitChar x = false ∧ x ≠ '.' := by
    intro x hx
    injection hx with hx
    subst hx
    exact ⟨by decide, by decide⟩
  have hrM : ∀ x : Char, ([('m' : Char)] : List Char).head? = some x →
      isDigitChar x = false ∧ x ≠ '.' := by
    intro x hx
    injection hx with hx
    subst hx
    exact ⟨by decide, by decide⟩
  have hrG : ∀ x : Char, ([('g' : Char)] : List Char).head? = some x →
      isDigitChar x = false ∧ x ≠ '.' := by
    intro x hx
    injection hx with hx
    subst hx
    exact ⟨by decide, by decide⟩
  have hrN : ∀ x : Char, ([] : List Char).head? = some x →
      isDigitChar x = false ∧ x ≠ '.' := by
    intro x hx
    exact Option.noConfusion hx
  refine ⟨?_, ?_, ?_, ?_, ?_⟩
  · unfold parseRateLimitSimple
    rw [hNorm 'k' (by decide) (by decide)]
    dsimp only
    rw [if_pos (by rw [hsuf]; rfl)]
    rw [parseFloatL_digits ds ['k'] hne hd hrK]
    dsimp only
    rw [if_pos (show (['k'] : List Char).head? = some 'k' from rfl)]
    dsimp only
    rw [if_neg (not_le.mpr (mul_pos hvpos h1024)),
      mul_div_cancel_right₀ _ (by norm_num : (1024 : ℚ) ≠ 0)]
  · unfold parseRateLimitSimple
    rw [hNorm 'm' (by decide) (by decide)]
    dsimp only
    rw [if_neg (by rw [hsuf]; exact Bool.noConfusion), if_pos (by rw [hsuf]; rfl)]
    rw [parseFloatL_digits ds ['m'] hne hd hrM]
    dsimp only
    rw [if_pos (show (['m'] : List Char).head? = some 'm' from rfl)]
    dsimp only
    rw [if_neg (not_le.mpr (mul_pos (mul_pos hvpos h1024) h1024)),
      mul_div_cancel_right₀ _ (by norm_num : (1024 : ℚ) ≠ 0)]
  · unfold parseRateLimitSimple
    rw [hNorm 'g' (by decide) (by decide)]
    dsimp only
    rw [if_neg (by rw [hsuf]; exact Bool.noConfusion),
      if_neg (by rw [hsuf]; exact Bool.noConfusion)]
    rw [parseFloatL_digits ds ['g'] hne hd hrG]
    dsimp only
    rw [if_neg (not_le.mpr hvpos)]
  · unfold parseRateLimitSimple
    rw [hNorm0]
    dsimp only
    rw [if_neg (by rw [hsufD 'k' (by decide)]; exact Bool.noConfusion),
      if_neg (by rw [hsufD 'm' (by decide)]; exact Bool.noConfusion)]
    have hpf : parseFloatL ds = some ((digitsVal ds : ℚ), []) := by
      have h := parseFloatL_digits ds [] hne hd hrN
      rwa [List.append_nil] at h
    rw [hpf]
    dsimp only
    rw [if_neg (not_le.mpr hvpos)]
  · have h0 : parseFloatL (("0" : String).data) = some ((0 : ℚ), []) := by
      have h := parseFloatL_digits ['0'] [] (by decide) (by decide)
        (fun x hx => Option.noConfusion hx)
      rw [List.append_nil] at h
      rw [show digitsVal ['0'] = 0 from rfl, Nat.cast_zero] at h
      exact h
    unfold parseRateLimitSimple
    rw [show goToLower (goTrimSpace "0") = "0" from rfl]
    dsimp only
    rw [if_neg (show ¬ goHasSuffix "0" "k" = true from by decide),
      if_neg (show ¬ goHasSuffix "0" "m" = true from by decide)]
    rw [h0]
    dsimp only
    rw [if_pos (le_refl (0 : ℚ))]
    rfl

/-- Witness for C9's amended parser behaviour at `N = 400`. -/
theorem parseRateLimitSimple_spec_witness :
    parseRateLimitSimple (⟨['4', '0', '0'] ++ ['k']⟩ : String) =
      .ok ((digitsVal ['4', '0', '0'] : ℚ), 1) :=
  (parseRateLimitSimple_spec ['4', '0', '0'] (by decide) (by decide) (by decide)).1

/-- C9 is refuted: the mirror parser has no `g` branch.  `"1g"` is scanned
by the plain-number branch (the trailing `g` is ignored), producing a
limiter of 1/1024 requests per second — 1 byte per second under the 1 KB
average request size — instead of the claimed 1·1024³ bytes per second. -/
theorem parseRateLimit_g_counterexample :
    parseRateLimitSimple "1g" = .ok (1 / 1024, 1) ∧
    ((1 : ℚ) / 1024) * 1024 = 1 ∧ (1 : ℚ) ≠ 1024 ^ 3 := by
  refine ⟨?_, by norm_num, by norm_num⟩
  have hpf : parseFloatL (("1g" : String).data) = some ((1 : ℚ), ['g']) := by
    have h := parseFloatL_digits ['1'] ['g'] (by decide) (by decide)
      (fun x hx => by injection hx with hx; subst hx; exact ⟨by decide, by decide⟩)
    rw [show digitsVal ['1'] = 1 from rfl, Nat.cast_one] at h
    exact h
  unfold parseRateLimitSimple
  rw [show goToLower (goTrimSpace "1g") = "1g" from rfl]
  dsimp only
  rw [if_neg (show ¬ goHasSuffix "1g" "k" = true from by decide),
    if_neg (show ¬ goHasSuffix "1g" "m" = true from by decide)]
  rw [hpf]
  dsimp only
  rw [if_neg (show ¬ (1 : ℚ) ≤ 0 from by norm_num)]

end Wget
